import Mathlib

/-!
Verification of the piet-cairo backend (`src/piet-cairo/src/lib.rs`): a shallow
embedding of the pixel-format converter, the path lowering, the geometry and
style translators, and the stateful render-context operations, together with
theorems settling the specification's claims.

Conventions: `f64` values are embedded as exact rationals `ℚ`; machine bytes
are `Nat` with explicit `% 256` / `% 65536` where the Rust code casts; the
mutable pixel buffer of a cairo image surface is a total function `Nat → Nat`
updated pointwise, mirroring the Rust index-assignment loops.
-/

namespace PietCairo

/-! ### Byte-level primitives -/

/-- Pointwise update of a byte buffer, mirroring `data[i] = v`. -/
def upd (f : Nat → Nat) (i v : Nat) : Nat → Nat :=
  fun j => if j = i then v else f j

/-- `fn premul(x: u8, a: u8) -> u8 { let y = (x as u16) * (a as u16);
    ((y + (y >> 8) + 0x80) >> 8) as u8 }`
(src/piet-cairo/src/lib.rs, inside the `RgbaSeparate` arm of `make_image`).
The `% 65536` models the `u16` width of `y` and of the additions; the final
`% 256` models the `as u8` cast. -/
def premul (x a : Nat) : Nat :=
  let y := (x * a) % 65536
  (((y + (y >>> 8) + 0x80) % 65536) >>> 8) % 256

/-! ### The image-conversion loops of `make_image`

The Rust code writes into `data` (the surface's pixel buffer) row by row and
pixel by pixel, with `src_off = y * bytes_per_row` and `dst_off = y * stride`.
`iterUp n f a` runs `f 0`, then `f 1`, …, then `f (n-1)`, i.e. a
`for x in 0..n` loop whose later iterations act on the state left by earlier
ones. -/
def iterUp (n : Nat) (f : Nat → α → α) (a : α) : α :=
  match n with
  | 0 => a
  | m + 1 => f m (iterUp m f a)

/-- The `ImageFormat::Rgb` inner loop body at pixel `x`:
`data[dst_off + x*4 + 0] = buf[src_off + x*3 + 2];`
`data[dst_off + x*4 + 1] = buf[src_off + x*3 + 1];`
`data[dst_off + x*4 + 2] = buf[src_off + x*3 + 0];` (no write to `+ 3`). -/
def writeRgbPixel (buf : Nat → Nat) (srcOff dstOff x : Nat) (d : Nat → Nat) : Nat → Nat :=
  upd (upd (upd d (dstOff + x * 4 + 0) (buf (srcOff + x * 3 + 2)))
        (dstOff + x * 4 + 1) (buf (srcOff + x * 3 + 1)))
    (dstOff + x * 4 + 2) (buf (srcOff + x * 3 + 0))

/-- The `ImageFormat::RgbaPremul` inner loop body at pixel `x`: pure channel
swap, alpha copied unchanged. -/
def writePremulPixel (buf : Nat → Nat) (srcOff dstOff x : Nat) (d : Nat → Nat) : Nat → Nat :=
  upd (upd (upd (upd d (dstOff + x * 4 + 0) (buf (srcOff + x * 4 + 2)))
          (dstOff + x * 4 + 1) (buf (srcOff + x * 4 + 1)))
      (dstOff + x * 4 + 2) (buf (srcOff + x * 4 + 0)))
    (dstOff + x * 4 + 3) (buf (srcOff + x * 4 + 3))

/-- The `ImageFormat::RgbaSeparate` inner loop body at pixel `x`: premultiply
each colour channel by the pixel's alpha, swap channel order, copy alpha. -/
def writeSeparatePixel (buf : Nat → Nat) (srcOff dstOff x : Nat) (d : Nat → Nat) : Nat → Nat :=
  let a := buf (srcOff + x * 4 + 3)
  upd (upd (upd (upd d (dstOff + x * 4 + 0) (premul (buf (srcOff + x * 4 + 2)) a))
          (dstOff + x * 4 + 1) (premul (buf (srcOff + x * 4 + 1)) a))
      (dstOff + x * 4 + 2) (premul (buf (srcOff + x * 4 + 0)) a))
    (dstOff + x * 4 + 3) a

/-- Modelled from the spec: the `ImageFormat` enumeration lives in the `piet`
crate, which is not under `src/`; the spec lists the three supported variants
OpaqueRGB (`Rgb`), StraightAlphaRGBA (`RgbaSeparate`), PremultipliedAlphaRGBA
(`RgbaPremul`), and speaks of "any other declared format", represented here by
the `other` constructor (the Rust enum is non-exhaustive, hence the `_ =>`
arms in `make_image`). -/
inductive ImageFormat where
  | rgb
  | rgbaSeparate
  | rgbaPremul
  | other
  deriving DecidableEq

/-- Modelled from the spec: `ImageFormat::bytes_per_pixel` (piet crate, not
under src/) — "OpaqueRGB (3 bytes/pixel)", the two RGBA formats 4 bytes/pixel.
The value for `other` is never reached by `make_image`. -/
def ImageFormat.bytesPerPixel : ImageFormat → Nat
  | .rgb => 3
  | .rgbaSeparate => 4
  | .rgbaPremul => 4
  | .other => 1

/-- The cairo surface formats used by `make_image`. -/
inductive CairoFormat where
  | rgb24
  | argb32
  deriving DecidableEq

/-- The format match at the top of `make_image`:
`ImageFormat::Rgb => Format::Rgb24`,
`ImageFormat::RgbaSeparate | ImageFormat::RgbaPremul => Format::ARgb32`,
`_ => return Err(new_error(ErrorKind::NotSupported))`. -/
def cairoFmt : ImageFormat → Option CairoFormat
  | .rgb => some .rgb24
  | .rgbaSeparate => some .argb32
  | .rgbaPremul => some .argb32
  | .other => none

/-- Modelled from the spec: the piet error-kind enumeration ("including at
minimum NotSupported"); the piet crate is not under src/. -/
inductive PietErrorKind where
  | notSupported
  deriving DecidableEq

/-- One row of `make_image`'s conversion loop, at row offsets
`src_off = y * bytes_per_row`, `dst_off = y * stride`: the inner
`for x in 0..width` loop with the body chosen by the (already validated)
format. The `_ => return Err(...)` arm of the inner match is unreachable:
the outer format check has already returned for any other format. -/
def convertRow (fmt : ImageFormat) (buf : Nat → Nat) (srcOff dstOff width : Nat)
    (d : Nat → Nat) : Nat → Nat :=
  match fmt with
  | .rgb => iterUp width (writeRgbPixel buf srcOff dstOff) d
  | .rgbaPremul => iterUp width (writePremulPixel buf srcOff dstOff) d
  | .rgbaSeparate => iterUp width (writeSeparatePixel buf srcOff dstOff) d
  | .other => d

/-- The `for y in 0..height` loop of `make_image`, with
`bytes_per_row = width * format.bytes_per_pixel()` and the surface's `stride`. -/
def convertImage (fmt : ImageFormat) (width height stride : Nat) (buf : Nat → Nat)
    (d : Nat → Nat) : Nat → Nat :=
  iterUp height
    (fun y => convertRow fmt buf (y * (width * fmt.bytesPerPixel)) (y * stride) width) d

/-- The image surface produced by `make_image`: dimensions, the stride chosen
by cairo, and the pixel data. -/
structure ImageSurface where
  width : Nat
  height : Nat
  stride : Nat
  data : Nat → Nat

/-- Result of `make_image`, instrumented with the number of
`ImageSurface::create` calls performed, so that "fails before allocating" is
expressible. -/
structure MakeImageResult where
  result : Except PietErrorKind ImageSurface
  allocations : Nat

/-- `make_image` (src/piet-cairo/src/lib.rs): validate the format (returning
`NotSupported` before any allocation), create the surface (cairo zero-fills a
fresh image surface, hence the initial `fun _ => 0` data), then run the
conversion loops. `stride` stands for the engine-chosen `image.get_stride()`;
cairo guarantees `stride ≥ width * 4` for the formats used here, which the
read-back theorems take as a hypothesis. -/
def makeImage (width height : Nat) (buf : Nat → Nat) (stride : Nat)
    (format : ImageFormat) : MakeImageResult :=
  match cairoFmt format with
  | none => ⟨.error .notSupported, 0⟩
  | some _ =>
    ⟨.ok ⟨width, height, stride, convertImage format width height stride buf fun _ => 0⟩, 1⟩

/-! ### Geometry: points, path elements, quadratic elevation, affine↔matrix

`f64` coordinates are embedded as exact rationals. -/

/-- A 2D point (kurbo `Point`). -/
structure Point where
  x : ℚ
  y : ℚ
  deriving DecidableEq

/-- The path-element stream produced by `shape.to_bez_path(1e-3)`
(kurbo `PathEl`). -/
inductive PathEl where
  | moveTo (p : Point)
  | lineTo (p : Point)
  | quadTo (p1 p2 : Point)
  | curveTo (p1 p2 p3 : Point)
  | closePath
  deriving DecidableEq

/-- A path-construction call issued on the cairo context by `set_path`. -/
inductive CairoCall where
  | moveTo (p : Point)
  | lineTo (p : Point)
  | curveTo (p1 p2 p3 : Point)
  | closePath
  deriving DecidableEq

/-- Modelled from the spec: `QuadBez::raise` from the kurbo geometry crate (an
external collaborator, not under src/), per the spec's exact degree-elevation
formula — the elevated cubic's inner control points are
`c1 = start + 2/3*(ctrl - start)` and `c2 = end + 2/3*(ctrl - end)`. -/
def quadRaise (p0 p1 p2 : Point) : Point × Point :=
  (⟨p0.x + 2/3 * (p1.x - p0.x), p0.y + 2/3 * (p1.y - p0.y)⟩,
    ⟨p2.x + 2/3 * (p1.x - p2.x), p2.y + 2/3 * (p1.y - p2.y)⟩)

/-- The loop body of `set_path` (src/piet-cairo/src/lib.rs): lower the element
stream to cairo path calls, tracking the current point `last` (initially
`Point::ZERO`); `QuadTo` builds `QuadBez::new(last, p1, p2)`, raises it to a
cubic and issues `curve_to(c.p1, c.p2, p2)`. -/
def setPathGo (last : Point) : List PathEl → List CairoCall
  | [] => []
  | PathEl.moveTo p :: rest => CairoCall.moveTo p :: setPathGo p rest
  | PathEl.lineTo p :: rest => CairoCall.lineTo p :: setPathGo p rest
  | PathEl.quadTo p1 p2 :: rest =>
    let c := quadRaise last p1 p2
    CairoCall.curveTo c.1 c.2 p2 :: setPathGo p2 rest
  | PathEl.curveTo p1 p2 p3 :: rest => CairoCall.curveTo p1 p2 p3 :: setPathGo p3 rest
  | PathEl.closePath :: rest => CairoCall.closePath :: setPathGo last rest

/-- The cairo calls built by `set_path` for a shape's element stream: a
defensive `new_path` (empty starting path) followed by the lowered calls. -/
def pathCalls (els : List PathEl) : List CairoCall :=
  setPathGo ⟨0, 0⟩ els

/-- cairo `Matrix` (fields in cairo's order). -/
structure Matrix where
  xx : ℚ
  yx : ℚ
  xy : ℚ
  yy : ℚ
  x0 : ℚ
  y0 : ℚ
  deriving DecidableEq

/-- Modelled from the spec: kurbo `Affine` (not under src/) is six coefficients
`(a, b, c, d, e, f)` in a fixed documented order, as returned by
`as_coeffs()`. -/
structure Affine where
  a : ℚ
  b : ℚ
  c : ℚ
  d : ℚ
  e : ℚ
  f : ℚ
  deriving DecidableEq

/-- `affine_to_matrix` (src/piet-cairo/src/lib.rs): direct field permutation
`xx = a[0], yx = a[1], xy = a[2], yy = a[3], x0 = a[4], y0 = a[5]`. -/
def affine_to_matrix (af : Affine) : Matrix :=
  { xx := af.a, yx := af.b, xy := af.c, yy := af.d, x0 := af.e, y0 := af.f }

/-- `matrix_to_affine` (src/piet-cairo/src/lib.rs):
`Affine::new([xx, yx, xy, yy, x0, y0])`. -/
def matrix_to_affine (m : Matrix) : Affine :=
  { a := m.xx, b := m.yx, c := m.xy, d := m.yy, e := m.x0, f := m.y0 }

/-! ### The stateful cairo context and the render-context operations -/

/-- `cairo::FillRule`. -/
inductive FillRule where
  | winding
  | evenOdd
  deriving DecidableEq

/-- Modelled from the spec: piet `LineCap` (piet crate, not under src/):
Butt / Round / Square. -/
inductive PLineCap where
  | butt
  | round
  | square
  deriving DecidableEq

/-- Modelled from the spec: piet `LineJoin` (piet crate, not under src/):
Miter / Round / Bevel. -/
inductive PLineJoin where
  | miter
  | round
  | bevel
  deriving DecidableEq

/-- `cairo::LineCap`. -/
inductive CLineCap where
  | butt
  | round
  | square
  deriving DecidableEq

/-- `cairo::LineJoin`. -/
inductive CLineJoin where
  | miter
  | round
  | bevel
  deriving DecidableEq

/-- `convert_line_cap` (src/piet-cairo/src/lib.rs). -/
def convert_line_cap : PLineCap → CLineCap
  | .butt => .butt
  | .round => .round
  | .square => .square

/-- `convert_line_join` (src/piet-cairo/src/lib.rs). -/
def convert_line_join : PLineJoin → CLineJoin
  | .miter => .miter
  | .round => .round
  | .bevel => .bevel

/-- Modelled from the spec: piet `StrokeStyle` (piet crate, not under src/) —
"optional overrides: line cap, line join, miter limit, dash pattern (ordered
sequence of dash lengths + starting phase offset)". -/
structure StrokeStyle where
  line_join : Option PLineJoin
  line_cap : Option PLineCap
  dash : Option (List ℚ × ℚ)
  miter_limit : Option ℚ

/-- A color stop added by `add_color_stop_rgba` (position plus four fractional
channels). -/
structure ColorStop where
  pos : ℚ
  r : ℚ
  g : ℚ
  b : ℚ
  a : ℚ
  deriving DecidableEq

/-- `cairo::LinearGradient::new(x0, y0, x1, y1)` plus its added stops. -/
structure LinearGradient where
  x0 : ℚ
  y0 : ℚ
  x1 : ℚ
  y1 : ℚ
  stops : List ColorStop
  deriving DecidableEq

/-- `cairo::RadialGradient::new(cx0, cy0, radius0, cx1, cy1, radius1)` plus its
added stops. -/
structure RadialGradient where
  cx0 : ℚ
  cy0 : ℚ
  radius0 : ℚ
  cx1 : ℚ
  cy1 : ℚ
  radius1 : ℚ
  stops : List ColorStop
  deriving DecidableEq

/-- `enum Brush { Solid(u32), Linear(..), Radial(..) }`
(src/piet-cairo/src/lib.rs). -/
inductive Brush where
  | solid (rgba : Nat)
  | linear (g : LinearGradient)
  | radial (g : RadialGradient)
  deriving DecidableEq

/-- `std::borrow::Cow<'_, Brush>` as returned by `make_brush`. -/
inductive CowBrush where
  | borrowed (b : Brush)
  | owned (b : Brush)
  deriving DecidableEq

/-- Dereferencing the `Cow` (`&*brush`). -/
def CowBrush.get : CowBrush → Brush
  | .borrowed b => b
  | .owned b => b

/-- `byte_to_frac` (src/piet-cairo/src/lib.rs):
`((byte & 255) as f64) * (1.0 / 255.0)`. -/
def byte_to_frac (byte : Nat) : ℚ :=
  ((byte % 256 : Nat) : ℚ) * (1 / 255)

/-- `kurbo::Rect` (x0, y0, x1, y1). -/
structure Rect where
  x0 : ℚ
  y0 : ℚ
  x1 : ℚ
  y1 : ℚ
  deriving DecidableEq

/-- `Rect::width()`. -/
def Rect.width (r : Rect) : ℚ := r.x1 - r.x0

/-- `Rect::height()`. -/
def Rect.height (r : Rect) : ℚ := r.y1 - r.y0

/-- The cairo context's current source pattern. -/
inductive Source where
  | rgb (r g b : ℚ)
  | rgba (r g b a : ℚ)
  | linear (g : LinearGradient)
  | radial (g : RadialGradient)
  deriving DecidableEq

/-- The source pattern installed by `set_brush` for each brush variant:
solid colors decompose the packed RGBA word through `byte_to_frac`; gradients
are passed to `set_source` as-is. -/
def brushSource : Brush → Source
  | .solid rgba =>
    .rgba (byte_to_frac (rgba >>> 24)) (byte_to_frac (rgba >>> 16))
      (byte_to_frac (rgba >>> 8)) (byte_to_frac rgba)
  | .linear g => .linear g
  | .radial g => .radial g

/-- The cairo drawing context state driven by `CairoRenderContext`: the current
path, fill rule, source and line parameters, plus (for observation) the record
of paths consumed by `fill`, `stroke` and `clip`. -/
structure CairoCtx where
  path : List CairoCall
  fillRule : FillRule
  source : Source
  lineWidth : ℚ
  lineJoin : CLineJoin
  lineCap : CLineCap
  miterLimit : ℚ
  dash : List ℚ × ℚ
  filled : List (FillRule × List CairoCall)
  stroked : List (List CairoCall)
  clipped : List (FillRule × List CairoCall)

/-- `Context::new_path`: clears the current path. -/
def new_path (st : CairoCtx) : CairoCtx := { st with path := [] }

/-- Appending one path-construction call (`move_to`/`line_to`/`curve_to`/
`close_path`) to the current path. -/
def append_call (c : CairoCall) (st : CairoCtx) : CairoCtx :=
  { st with path := st.path ++ [c] }

/-- `Context::set_fill_rule`. -/
def set_fill_rule (r : FillRule) (st : CairoCtx) : CairoCtx := { st with fillRule := r }

/-- Modelled from the cairo engine contract (spec §4.5): `Context::fill`
consumes the current path under the current fill rule and clears it ("path
state cleared as side effect by the fill call itself"). -/
def ctx_fill (st : CairoCtx) : CairoCtx :=
  { st with filled := st.filled ++ [(st.fillRule, st.path)], path := [] }

/-- Modelled from the cairo engine contract (spec §4.5): `Context::stroke`
consumes and clears the current path. -/
def ctx_stroke (st : CairoCtx) : CairoCtx :=
  { st with stroked := st.stroked ++ [st.path], path := [] }

/-- Modelled from the cairo engine contract (spec §4.5): `Context::clip`
intersects the current path (under the current fill rule) into the clip region
and clears the path. -/
def ctx_clip (st : CairoCtx) : CairoCtx :=
  { st with clipped := st.clipped ++ [(st.fillRule, st.path)], path := [] }

/-- `set_path` (src/piet-cairo/src/lib.rs): a defensive `new_path` ("this
shouldn't be necessary, we always leave the context in no-path state"),
then the lowered calls of the shape's element stream. -/
def set_path (shape : List PathEl) (st : CairoCtx) : CairoCtx :=
  (pathCalls shape).foldl (fun s c => append_call c s) (new_path st)

/-- `set_brush` (src/piet-cairo/src/lib.rs): set the source pattern from the
brush. -/
def set_brush (b : Brush) (st : CairoCtx) : CairoCtx :=
  { st with source := brushSource b }

/-- `set_stroke` (src/piet-cairo/src/lib.rs): width, then join, cap and miter
limit with per-field defaults, then the dash array (cleared to
`set_dash(&[], 0.0)` when the style carries no dash pattern). -/
def set_stroke (width : ℚ) (style : Option StrokeStyle) (st : CairoCtx) : CairoCtx :=
  { st with
    lineWidth := width,
    lineJoin := convert_line_join ((style.bind StrokeStyle.line_join).getD PLineJoin.miter),
    lineCap := convert_line_cap ((style.bind StrokeStyle.line_cap).getD PLineCap.butt),
    miterLimit := (style.bind StrokeStyle.miter_limit).getD 10,
    dash :=
      match style.bind StrokeStyle.dash with
      | none => ([], 0)
      | some dl => dl }

/-- `IntoBrush::make_brush` for `Brush` (src/piet-cairo/src/lib.rs): returns
`Cow::Borrowed(self)`; the context and the lazy bounding-box supplier are
ignored. -/
def make_brush (b : Brush) (st : CairoCtx) (_bbox : Unit → Rect) : CowBrush × CairoCtx :=
  (CowBrush.borrowed b, st)

/-- The shape's lazy bounding box `|| shape.bounding_box()` passed to
`make_brush`; `make_brush` never invokes it (see `make_brush_borrowed`), so the
model passes a placeholder rectangle (kurbo's `bounding_box` is external). -/
def bboxPlaceholder : Unit → Rect := fun _ => ⟨0, 0, 0, 0⟩

/-- `RenderContext::fill` (src/piet-cairo/src/lib.rs): make_brush, set_path,
set_brush, set_fill_rule(Winding), fill. -/
def fill (shape : List PathEl) (b : Brush) (st : CairoCtx) : CairoCtx :=
  let mb := make_brush b st bboxPlaceholder
  ctx_fill (set_fill_rule FillRule.winding (set_brush mb.1.get (set_path shape mb.2)))

/-- `RenderContext::fill_even_odd` (src/piet-cairo/src/lib.rs). -/
def fill_even_odd (shape : List PathEl) (b : Brush) (st : CairoCtx) : CairoCtx :=
  let mb := make_brush b st bboxPlaceholder
  ctx_fill (set_fill_rule FillRule.evenOdd (set_brush mb.1.get (set_path shape mb.2)))

/-- `RenderContext::clip` (src/piet-cairo/src/lib.rs): set_path,
set_fill_rule(Winding), clip. -/
def clip (shape : List PathEl) (st : CairoCtx) : CairoCtx :=
  ctx_clip (set_fill_rule FillRule.winding (set_path shape st))

/-- `RenderContext::stroke` (src/piet-cairo/src/lib.rs): make_brush, set_path,
set_stroke(width, None), set_brush, stroke. -/
def stroke (shape : List PathEl) (b : Brush) (width : ℚ) (st : CairoCtx) : CairoCtx :=
  let mb := make_brush b st bboxPlaceholder
  ctx_stroke (set_brush mb.1.get (set_stroke width none (set_path shape mb.2)))

/-- `RenderContext::stroke_styled` (src/piet-cairo/src/lib.rs). -/
def stroke_styled (shape : List PathEl) (b : Brush) (width : ℚ) (style : StrokeStyle)
    (st : CairoCtx) : CairoCtx :=
  let mb := make_brush b st bboxPlaceholder
  ctx_stroke (set_brush mb.1.get (set_stroke width (some style) (set_path shape mb.2)))

/-- A cairo context with cairo's initial defaults (used as a concrete witness
state). -/
def initCtx : CairoCtx :=
  { path := [], fillRule := .winding, source := .rgba 0 0 0 1, lineWidth := 2,
    lineJoin := .miter, lineCap := .butt, miterLimit := 10, dash := ([], 0),
    filled := [], stroked := [], clipped := [] }

/-- A stroke style carrying only a dash pattern (for the dash-clearing
witness). -/
def dashStyle : StrokeStyle :=
  { line_join := none, line_cap := none, dash := some ([1, 2], 1/2), miter_limit := none }

/-! ### `draw_image` -/

/-- Modelled from the spec: piet `InterpolationMode` (piet crate, not under
src/): NearestNeighbor / Bilinear. -/
inductive InterpolationMode where
  | nearestNeighbor
  | bilinear
  deriving DecidableEq

/-- The cairo pattern filters used by `draw_image`. -/
inductive CairoFilter where
  | nearest
  | bilinear
  deriving DecidableEq

/-- The filter match in `draw_image` (src/piet-cairo/src/lib.rs). -/
def filterOf : InterpolationMode → CairoFilter
  | .nearestNeighbor => .nearest
  | .bilinear => .bilinear

/-- A cairo image surface as read by `draw_image`
(`image.get_width()`, `image.get_height()`). -/
structure CImage where
  width : Nat
  height : Nat
  deriving DecidableEq

/-- The operations `draw_image` issues against the context, in order. -/
inductive ImageOp where
  | save
  | clipRect (r : Rect)
  | translate (tx ty : ℚ)
  | scale (sx sy : ℚ)
  | setSourceSurface (f : CairoFilter)
  | paint
  | restore
  deriving DecidableEq

/-- `draw_image` (the free function, src/piet-cairo/src/lib.rs): inside a
`with_save` scope, create the surface pattern with the requested filter,
default the source rectangle to the image's full extent, compute per-axis
scale factors `dst/src`, then clip, translate, scale, set source, paint.
(`rc.clip(dst_rect)` lowers the rectangle as a path; it is recorded here as a
single `clipRect` operation.) -/
def draw_image (image : CImage) (srcRect : Option Rect) (dstRect : Rect)
    (interp : InterpolationMode) : List ImageOp :=
  let src :=
    match srcRect with
    | some s => s
    | none => ⟨0, 0, (image.width : ℚ), (image.height : ℚ)⟩
  let scaleX := dstRect.width / src.width
  let scaleY := dstRect.height / src.height
  [ImageOp.save, ImageOp.clipRect dstRect,
    ImageOp.translate (dstRect.x0 - scaleX * src.x0) (dstRect.y0 - scaleY * src.y0),
    ImageOp.scale scaleX scaleY, ImageOp.setSourceSurface (filterOf interp),
    ImageOp.paint, ImageOp.restore]


/-! ## Theorems -/

theorem upd_self (f : Nat → Nat) (i v : Nat) : upd f i v i = v := by
  simp [upd]

theorem upd_of_ne (f : Nat → Nat) (i v j : Nat) (h : j ≠ i) : upd f i v j = f j := by
  simp [upd, h]

/-! Generic read/frame lemmas for `iterUp` at a fixed buffer index `j`. -/

/-- If no iteration below `n` writes index `j`, the loop leaves `j` unchanged. -/
theorem iterUp_untouched (W : Nat → (Nat → Nat) → Nat → Nat) (n j : Nat) (d : Nat → Nat)
    (h : ∀ y, y < n → ∀ d' : Nat → Nat, W y d' j = d' j) :
    iterUp n W d j = d j := by
  induction n with
  | zero => rfl
  | succ m ih =>
    have hm := h m (Nat.lt_succ_self m) (iterUp m W d)
    calc iterUp (m + 1) W d j = W m (iterUp m W d) j := rfl
      _ = iterUp m W d j := hm
      _ = d j := ih (fun y hy d' => h y (Nat.lt_succ_of_lt hy) d')

/-- If no iteration after `x` writes index `j`, reading `j` after the loop is
reading it right after iteration `x`. -/
theorem iterUp_read (W : Nat → (Nat → Nat) → Nat → Nat) (n x j : Nat) (d : Nat → Nat)
    (hx : x < n)
    (h : ∀ y, x < y → y < n → ∀ d' : Nat → Nat, W y d' j = d' j) :
    iterUp n W d j = W x (iterUp x W d) j := by
  induction n with
  | zero => exact absurd hx (Nat.not_lt_zero x)
  | succ m ih =>
    rcases Nat.lt_succ_iff_lt_or_eq.mp hx with hlt | heq
    · have hm := h m hlt (Nat.lt_succ_self m) (iterUp m W d)
      calc iterUp (m + 1) W d j = W m (iterUp m W d) j := rfl
        _ = iterUp m W d j := hm
        _ = W x (iterUp x W d) j := ih hlt (fun y hy hym d' => h y hy (Nat.lt_succ_of_lt hym) d')
    · subst heq; rfl

/-! Pointwise characterizations of the three pixel writers. -/

theorem writeRgbPixel_eq (buf : Nat → Nat) (sOff dOff x : Nat) (d : Nat → Nat) (j : Nat) :
    writeRgbPixel buf sOff dOff x d j =
      if j = dOff + x * 4 + 2 then buf (sOff + x * 3 + 0)
      else if j = dOff + x * 4 + 1 then buf (sOff + x * 3 + 1)
      else if j = dOff + x * 4 + 0 then buf (sOff + x * 3 + 2)
      else d j := rfl

theorem writePremulPixel_eq (buf : Nat → Nat) (sOff dOff x : Nat) (d : Nat → Nat) (j : Nat) :
    writePremulPixel buf sOff dOff x d j =
      if j = dOff + x * 4 + 3 then buf (sOff + x * 4 + 3)
      else if j = dOff + x * 4 + 2 then buf (sOff + x * 4 + 0)
      else if j = dOff + x * 4 + 1 then buf (sOff + x * 4 + 1)
      else if j = dOff + x * 4 + 0 then buf (sOff + x * 4 + 2)
      else d j := rfl

theorem writeSeparatePixel_eq (buf : Nat → Nat) (sOff dOff x : Nat) (d : Nat → Nat) (j : Nat) :
    writeSeparatePixel buf sOff dOff x d j =
      if j = dOff + x * 4 + 3 then buf (sOff + x * 4 + 3)
      else if j = dOff + x * 4 + 2 then premul (buf (sOff + x * 4 + 0)) (buf (sOff + x * 4 + 3))
      else if j = dOff + x * 4 + 1 then premul (buf (sOff + x * 4 + 1)) (buf (sOff + x * 4 + 3))
      else if j = dOff + x * 4 + 0 then premul (buf (sOff + x * 4 + 2)) (buf (sOff + x * 4 + 3))
      else d j := rfl

theorem writeRgbPixel_frame (buf : Nat → Nat) (sOff dOff x : Nat) (d : Nat → Nat) (j : Nat)
    (h : j < dOff + x * 4 ∨ dOff + x * 4 + 3 ≤ j) :
    writeRgbPixel buf sOff dOff x d j = d j := by
  rw [writeRgbPixel_eq, if_neg (by omega), if_neg (by omega), if_neg (by omega)]

theorem writePremulPixel_frame (buf : Nat → Nat) (sOff dOff x : Nat) (d : Nat → Nat) (j : Nat)
    (h : j < dOff + x * 4 ∨ dOff + x * 4 + 4 ≤ j) :
    writePremulPixel buf sOff dOff x d j = d j := by
  rw [writePremulPixel_eq, if_neg (by omega), if_neg (by omega), if_neg (by omega),
    if_neg (by omega)]

theorem writeSeparatePixel_frame (buf : Nat → Nat) (sOff dOff x : Nat) (d : Nat → Nat) (j : Nat)
    (h : j < dOff + x * 4 ∨ dOff + x * 4 + 4 ≤ j) :
    writeSeparatePixel buf sOff dOff x d j = d j := by
  rw [writeSeparatePixel_eq, if_neg (by omega), if_neg (by omega), if_neg (by omega),
    if_neg (by omega)]

/-- A conversion row leaves every index outside `[dOff, dOff + w*4)` unchanged. -/
theorem convertRow_frame (fmt : ImageFormat) (buf : Nat → Nat) (sOff dOff w : Nat)
    (d : Nat → Nat) (j : Nat) (h : j < dOff ∨ dOff + w * 4 ≤ j) :
    convertRow fmt buf sOff dOff w d j = d j := by
  cases fmt with
  | rgb =>
    exact iterUp_untouched _ w j d fun y hy d' =>
      writeRgbPixel_frame buf sOff dOff y d' j (by omega)
  | rgbaPremul =>
    exact iterUp_untouched _ w j d fun y hy d' =>
      writePremulPixel_frame buf sOff dOff y d' j (by omega)
  | rgbaSeparate =>
    exact iterUp_untouched _ w j d fun y hy d' =>
      writeSeparatePixel_frame buf sOff dOff y d' j (by omega)
  | other => rfl

/-! Row-level read lemmas.  For a pixel `x < w` the only iterations of the row
loop that can write pixel `x`'s bytes are those at `x` itself: later pixels
write strictly higher indices. -/

theorem convertRow_rgb_read (buf : Nat → Nat) (sOff dOff w x : Nat) (d : Nat → Nat)
    (hx : x < w) :
    convertRow ImageFormat.rgb buf sOff dOff w d (dOff + x * 4 + 0) = buf (sOff + x * 3 + 2)
      ∧ convertRow ImageFormat.rgb buf sOff dOff w d (dOff + x * 4 + 1) = buf (sOff + x * 3 + 1)
      ∧ convertRow ImageFormat.rgb buf sOff dOff w d (dOff + x * 4 + 2) = buf (sOff + x * 3 + 0)
      ∧ convertRow ImageFormat.rgb buf sOff dOff w d (dOff + x * 4 + 3)
          = d (dOff + x * 4 + 3) := by
  refine ⟨?_, ?_, ?_, ?_⟩
  · rw [show convertRow ImageFormat.rgb buf sOff dOff w d = iterUp w (writeRgbPixel buf sOff dOff) d from rfl,
      iterUp_read _ w x _ d hx
        (fun y hy hyw d' => writeRgbPixel_frame buf sOff dOff y d' _ (by omega)),
      writeRgbPixel_eq, if_neg (by omega), if_neg (by omega), if_pos rfl]
  · rw [show convertRow ImageFormat.rgb buf sOff dOff w d = iterUp w (writeRgbPixel buf sOff dOff) d from rfl,
      iterUp_read _ w x _ d hx
        (fun y hy hyw d' => writeRgbPixel_frame buf sOff dOff y d' _ (by omega)),
      writeRgbPixel_eq, if_neg (by omega), if_pos rfl]
  · rw [show convertRow ImageFormat.rgb buf sOff dOff w d = iterUp w (writeRgbPixel buf sOff dOff) d from rfl,
      iterUp_read _ w x _ d hx
        (fun y hy hyw d' => writeRgbPixel_frame buf sOff dOff y d' _ (by omega)),
      writeRgbPixel_eq, if_pos rfl]
  · exact iterUp_untouched _ w _ d fun y hy d' =>
      writeRgbPixel_frame buf sOff dOff y d' _ (by omega)

theorem convertRow_premul_read (buf : Nat → Nat) (sOff dOff w x : Nat) (d : Nat → Nat)
    (hx : x < w) :
    convertRow ImageFormat.rgbaPremul buf sOff dOff w d (dOff + x * 4 + 0)
        = buf (sOff + x * 4 + 2)
      ∧ convertRow ImageFormat.rgbaPremul buf sOff dOff w d (dOff + x * 4 + 1)
          = buf (sOff + x * 4 + 1)
      ∧ convertRow ImageFormat.rgbaPremul buf sOff dOff w d (dOff + x * 4 + 2)
          = buf (sOff + x * 4 + 0)
      ∧ convertRow ImageFormat.rgbaPremul buf sOff dOff w d (dOff + x * 4 + 3)
          = buf (sOff + x * 4 + 3) := by
  refine ⟨?_, ?_, ?_, ?_⟩
  · rw [show convertRow ImageFormat.rgbaPremul buf sOff dOff w d = iterUp w (writePremulPixel buf sOff dOff) d from rfl,
      iterUp_read _ w x _ d hx
        (fun y hy hyw d' => writePremulPixel_frame buf sOff dOff y d' _ (by omega)),
      writePremulPixel_eq, if_neg (by omega), if_neg (by omega), if_neg (by omega), if_pos rfl]
  · rw [show convertRow ImageFormat.rgbaPremul buf sOff dOff w d = iterUp w (writePremulPixel buf sOff dOff) d from rfl,
      iterUp_read _ w x _ d hx
        (fun y hy hyw d' => writePremulPixel_frame buf sOff dOff y d' _ (by omega)),
      writePremulPixel_eq, if_neg (by omega), if_neg (by omega), if_pos rfl]
  · rw [show convertRow ImageFormat.rgbaPremul buf sOff dOff w d = iterUp w (writePremulPixel buf sOff dOff) d from rfl,
      iterUp_read _ w x _ d hx
        (fun y hy hyw d' => writePremulPixel_frame buf sOff dOff y d' _ (by omega)),
      writePremulPixel_eq, if_neg (by omega), if_pos rfl]
  · rw [show convertRow ImageFormat.rgbaPremul buf sOff dOff w d = iterUp w (writePremulPixel buf sOff dOff) d from rfl,
      iterUp_read _ w x _ d hx
        (fun y hy hyw d' => writePremulPixel_frame buf sOff dOff y d' _ (by omega)),
      writePremulPixel_eq, if_pos rfl]

/-! Image-level read lemmas.  With `w * 4 ≤ stride` (cairo guarantees the
stride covers a row) distinct rows write disjoint index ranges. -/

theorem convertImage_row_select (fmt : ImageFormat) (w h stride : Nat) (buf d : Nat → Nat)
    (y j : Nat) (hy : y < h) (hs : w * 4 ≤ stride)
    (_hj1 : y * stride ≤ j) (hj2 : j < y * stride + w * 4) :
    convertImage fmt w h stride buf d j
      = convertRow fmt buf (y * (w * fmt.bytesPerPixel)) (y * stride) w
          (iterUp y
            (fun q => convertRow fmt buf (q * (w * fmt.bytesPerPixel)) (q * stride) w) d) j := by
  unfold convertImage
  refine iterUp_read _ h y j d hy ?_
  intro q hq hqh d'
  refine convertRow_frame fmt buf _ _ w d' j (Or.inl ?_)
  have h1 : (y + 1) * stride ≤ q * stride := Nat.mul_le_mul (by omega) (Nat.le_refl stride)
  have h2 : (y + 1) * stride = y * stride + stride := Nat.succ_mul y stride
  omega

theorem convertImage_rows_untouched (fmt : ImageFormat) (w stride : Nat) (buf d : Nat → Nat)
    (n j : Nat) (hs : w * 4 ≤ stride) (hj : n * stride ≤ j) :
    iterUp n (fun q => convertRow fmt buf (q * (w * fmt.bytesPerPixel)) (q * stride) w) d j
      = d j := by
  refine iterUp_untouched _ n j d ?_
  intro q hq d'
  refine convertRow_frame fmt buf _ _ w d' j (Or.inr ?_)
  have h1 : (q + 1) * stride ≤ n * stride := Nat.mul_le_mul (by omega) (Nat.le_refl stride)
  have h2 : (q + 1) * stride = q * stride + stride := Nat.succ_mul q stride
  omega

theorem convertImage_rgb_read (w h stride : Nat) (buf d : Nat → Nat) (x y : Nat)
    (hs : w * 4 ≤ stride) (hx : x < w) (hy : y < h) :
    convertImage ImageFormat.rgb w h stride buf d (y * stride + x * 4 + 0)
        = buf (y * (w * 3) + x * 3 + 2)
      ∧ convertImage ImageFormat.rgb w h stride buf d (y * stride + x * 4 + 1)
          = buf (y * (w * 3) + x * 3 + 1)
      ∧ convertImage ImageFormat.rgb w h stride buf d (y * stride + x * 4 + 2)
          = buf (y * (w * 3) + x * 3 + 0)
      ∧ convertImage ImageFormat.rgb w h stride buf d (y * stride + x * 4 + 3)
          = d (y * stride + x * 4 + 3) := by
  have e : ImageFormat.bytesPerPixel ImageFormat.rgb = 3 := rfl
  refine ⟨?_, ?_, ?_, ?_⟩
  · rw [convertImage_row_select ImageFormat.rgb w h stride buf d y _ hy hs (by omega) (by omega), e]
    exact (convertRow_rgb_read buf _ _ w x _ hx).1
  · rw [convertImage_row_select ImageFormat.rgb w h stride buf d y _ hy hs (by omega) (by omega), e]
    exact (convertRow_rgb_read buf _ _ w x _ hx).2.1
  · rw [convertImage_row_select ImageFormat.rgb w h stride buf d y _ hy hs (by omega) (by omega), e]
    exact (convertRow_rgb_read buf _ _ w x _ hx).2.2.1
  · rw [convertImage_row_select ImageFormat.rgb w h stride buf d y _ hy hs (by omega) (by omega), e,
      (convertRow_rgb_read buf _ _ w x _ hx).2.2.2]
    exact convertImage_rows_untouched ImageFormat.rgb w stride buf d y _ hs (by omega)

theorem convertImage_premul_read (w h stride : Nat) (buf d : Nat → Nat) (x y : Nat)
    (hs : w * 4 ≤ stride) (hx : x < w) (hy : y < h) :
    convertImage ImageFormat.rgbaPremul w h stride buf d (y * stride + x * 4 + 0)
        = buf (y * (w * 4) + x * 4 + 2)
      ∧ convertImage ImageFormat.rgbaPremul w h stride buf d (y * stride + x * 4 + 1)
          = buf (y * (w * 4) + x * 4 + 1)
      ∧ convertImage ImageFormat.rgbaPremul w h stride buf d (y * stride + x * 4 + 2)
          = buf (y * (w * 4) + x * 4 + 0)
      ∧ convertImage ImageFormat.rgbaPremul w h stride buf d (y * stride + x * 4 + 3)
          = buf (y * (w * 4) + x * 4 + 3) := by
  have e : ImageFormat.bytesPerPixel ImageFormat.rgbaPremul = 4 := rfl
  refine ⟨?_, ?_, ?_, ?_⟩
  · rw [convertImage_row_select ImageFormat.rgbaPremul w h stride buf d y _ hy hs (by omega)
      (by omega), e]
    exact (convertRow_premul_read buf _ _ w x _ hx).1
  · rw [convertImage_row_select ImageFormat.rgbaPremul w h stride buf d y _ hy hs (by omega)
      (by omega), e]
    exact (convertRow_premul_read buf _ _ w x _ hx).2.1
  · rw [convertImage_row_select ImageFormat.rgbaPremul w h stride buf d y _ hy hs (by omega)
      (by omega), e]
    exact (convertRow_premul_read buf _ _ w x _ hx).2.2.1
  · rw [convertImage_row_select ImageFormat.rgbaPremul w h stride buf d y _ hy hs (by omega)
      (by omega), e]
    exact (convertRow_premul_read buf _ _ w x _ hx).2.2.2

/-! ### C1: the premultiply function -/

/-- C1. For all 8-bit inputs `x` (channel) and `a` (alpha), the `premul`
function used by the `RgbaSeparate` arm of `make_image` computes exactly
`y = x*a; (y + (y >>> 8) + 0x80) >>> 8` — the `u16` widths and the final `u8`
cast never truncate — and in particular `premul 255 255 = 255`,
`premul 0 a = 0`, `premul x 0 = 0`, and `premul 255 128 = 128`. -/
theorem premul_fixed_point (x a : Nat) (hx : x < 256) (ha : a < 256) :
    premul x a = (x * a + (x * a) >>> 8 + 0x80) >>> 8
      ∧ premul 255 255 = 255 ∧ premul 0 a = 0 ∧ premul x 0 = 0
      ∧ premul 255 128 = 128 := by
  have hy : x * a ≤ 65025 := Nat.mul_le_mul (Nat.lt_succ_iff.mp hx) (Nat.lt_succ_iff.mp ha)
  have hdiv : x * a / 256 ≤ 254 := by
    calc x * a / 256 ≤ 65025 / 256 := Nat.div_le_div_right hy
      _ = 254 := by norm_num
  refine ⟨?_, by decide, by simp [premul], by simp [premul], by decide⟩
  have hmod : (x * a) % 65536 = x * a := Nat.mod_eq_of_lt (by omega)
  simp only [premul, hmod, Nat.shiftRight_eq_div_pow]
  norm_num
  rw [Nat.mod_eq_of_lt (show x * a + x * a / 256 + 128 < 65536 by omega)]
  rw [Nat.mod_eq_of_lt ((Nat.div_lt_iff_lt_mul (by norm_num)).mpr (by omega))]

/-- Witness for `premul_fixed_point` at `x = 200`, `a = 100`. -/
theorem premul_fixed_point_witness :
    (200 : Nat) < 256 ∧ (100 : Nat) < 256
      ∧ (premul 200 100 = (200 * 100 + (200 * 100) >>> 8 + 0x80) >>> 8
          ∧ premul 255 255 = 255 ∧ premul 0 100 = 0 ∧ premul 200 0 = 0
          ∧ premul 255 128 = 128) :=
  ⟨by decide, by decide, premul_fixed_point 200 100 (by decide) (by decide)⟩

/-! ### C2, C3, C4: `make_image` -/

/-- C2 (amended). For every width, height and source buffer, `make_image` with
the OpaqueRGB (`Rgb`) format produces a surface in which, for every pixel, the
three color channels are the byte-swapped RGB values of the source pixel; the
alpha byte is not written and keeps its initial zero value (cairo's `Rgb24`
format ignores it), rather than being set to 255. -/
theorem make_image_rgb_swaps_channels (w h stride : Nat) (buf : Nat → Nat) (x y : Nat)
    (hs : w * 4 ≤ stride) (hx : x < w) (hy : y < h) :
    (makeImage w h buf stride ImageFormat.rgb).result
        = Except.ok ⟨w, h, stride, convertImage ImageFormat.rgb w h stride buf fun _ => 0⟩
      ∧ convertImage ImageFormat.rgb w h stride buf (fun _ => 0) (y * stride + x * 4 + 0)
          = buf (y * (w * 3) + x * 3 + 2)
      ∧ convertImage ImageFormat.rgb w h stride buf (fun _ => 0) (y * stride + x * 4 + 1)
          = buf (y * (w * 3) + x * 3 + 1)
      ∧ convertImage ImageFormat.rgb w h stride buf (fun _ => 0) (y * stride + x * 4 + 2)
          = buf (y * (w * 3) + x * 3 + 0)
      ∧ convertImage ImageFormat.rgb w h stride buf (fun _ => 0) (y * stride + x * 4 + 3)
          = 0 :=
  ⟨rfl, (convertImage_rgb_read w h stride buf _ x y hs hx hy).1,
    (convertImage_rgb_read w h stride buf _ x y hs hx hy).2.1,
    (convertImage_rgb_read w h stride buf _ x y hs hx hy).2.2.1,
    (convertImage_rgb_read w h stride buf _ x y hs hx hy).2.2.2⟩

/-- Witness for `make_image_rgb_swaps_channels`: a 2×2 image with stride 8 and
`buf i = i`, read back at pixel (1,1). -/
theorem make_image_rgb_swaps_channels_witness :
    (makeImage 2 2 (fun i => i) 8 ImageFormat.rgb).result
        = Except.ok ⟨2, 2, 8, convertImage ImageFormat.rgb 2 2 8 (fun i => i) fun _ => 0⟩
      ∧ convertImage ImageFormat.rgb 2 2 8 (fun i => i) (fun _ => 0) (1 * 8 + 1 * 4 + 0)
          = (fun i => i) (1 * (2 * 3) + 1 * 3 + 2)
      ∧ convertImage ImageFormat.rgb 2 2 8 (fun i => i) (fun _ => 0) (1 * 8 + 1 * 4 + 1)
          = (fun i => i) (1 * (2 * 3) + 1 * 3 + 1)
      ∧ convertImage ImageFormat.rgb 2 2 8 (fun i => i) (fun _ => 0) (1 * 8 + 1 * 4 + 2)
          = (fun i => i) (1 * (2 * 3) + 1 * 3 + 0)
      ∧ convertImage ImageFormat.rgb 2 2 8 (fun i => i) (fun _ => 0) (1 * 8 + 1 * 4 + 3)
          = 0 :=
  make_image_rgb_swaps_channels 2 2 8 (fun i => i) 1 1 (by decide) (by decide) (by decide)

/-- C2 counterexample: for a 1×1 OpaqueRGB image (stride 4, source bytes all 9)
the destination alpha byte (index 3) is 0, not 255 as the claim states —
the `Rgb` arm of `make_image` never writes `data[dst_off + x*4 + 3]`. -/
theorem make_image_rgb_alpha_not_opaque :
    (makeImage 1 1 (fun _ => 9) 4 ImageFormat.rgb).result
        = Except.ok ⟨1, 1, 4, convertImage ImageFormat.rgb 1 1 4 (fun _ => 9) fun _ => 0⟩
      ∧ convertImage ImageFormat.rgb 1 1 4 (fun _ => 9) (fun _ => 0) 3 = 0
      ∧ (0 : Nat) ≠ 255 :=
  ⟨rfl, by decide, by decide⟩

/-- C3. For every width, height and buffer, `make_image` with a declared format
outside the three supported ones returns `NotSupported` and performs no surface
allocation (the format match is the first thing `make_image` does). -/
theorem make_image_unsupported_no_alloc (w h stride : Nat) (buf : Nat → Nat) :
    makeImage w h buf stride ImageFormat.other
      = ⟨Except.error PietErrorKind.notSupported, 0⟩ := rfl

/-- C4. For every width, height and source buffer, `make_image` with the
PremultipliedAlphaRGBA (`RgbaPremul`) format only permutes the channel order of
each pixel: each destination byte of pixel (x,y) equals a source byte of the
same pixel unchanged (indices 0↔2 swapped, 1 and 3 copied; no arithmetic). -/
theorem make_image_premul_permutes (w h stride : Nat) (buf : Nat → Nat) (x y : Nat)
    (hs : w * 4 ≤ stride) (hx : x < w) (hy : y < h) :
    (makeImage w h buf stride ImageFormat.rgbaPremul).result
        = Except.ok
            ⟨w, h, stride, convertImage ImageFormat.rgbaPremul w h stride buf fun _ => 0⟩
      ∧ convertImage ImageFormat.rgbaPremul w h stride buf (fun _ => 0) (y * stride + x * 4 + 0)
          = buf (y * (w * 4) + x * 4 + 2)
      ∧ convertImage ImageFormat.rgbaPremul w h stride buf (fun _ => 0) (y * stride + x * 4 + 1)
          = buf (y * (w * 4) + x * 4 + 1)
      ∧ convertImage ImageFormat.rgbaPremul w h stride buf (fun _ => 0) (y * stride + x * 4 + 2)
          = buf (y * (w * 4) + x * 4 + 0)
      ∧ convertImage ImageFormat.rgbaPremul w h stride buf (fun _ => 0) (y * stride + x * 4 + 3)
          = buf (y * (w * 4) + x * 4 + 3) :=
  ⟨rfl, (convertImage_premul_read w h stride buf _ x y hs hx hy).1,
    (convertImage_premul_read w h stride buf _ x y hs hx hy).2.1,
    (convertImage_premul_read w h stride buf _ x y hs hx hy).2.2.1,
    (convertImage_premul_read w h stride buf _ x y hs hx hy).2.2.2⟩

/-- Witness for `make_image_premul_permutes`: a 2×1 image with stride 8 and
`buf i = 10 + i`, read back at pixel (1,0). -/
theorem make_image_premul_permutes_witness :
    (makeImage 2 1 (fun i => 10 + i) 8 ImageFormat.rgbaPremul).result
        = Except.ok
            ⟨2, 1, 8, convertImage ImageFormat.rgbaPremul 2 1 8 (fun i => 10 + i) fun _ => 0⟩
      ∧ convertImage ImageFormat.rgbaPremul 2 1 8 (fun i => 10 + i) (fun _ => 0)
            (0 * 8 + 1 * 4 + 0) = (fun i => 10 + i) (0 * (2 * 4) + 1 * 4 + 2)
      ∧ convertImage ImageFormat.rgbaPremul 2 1 8 (fun i => 10 + i) (fun _ => 0)
            (0 * 8 + 1 * 4 + 1) = (fun i => 10 + i) (0 * (2 * 4) + 1 * 4 + 1)
      ∧ convertImage ImageFormat.rgbaPremul 2 1 8 (fun i => 10 + i) (fun _ => 0)
            (0 * 8 + 1 * 4 + 2) = (fun i => 10 + i) (0 * (2 * 4) + 1 * 4 + 0)
      ∧ convertImage ImageFormat.rgbaPremul 2 1 8 (fun i => 10 + i) (fun _ => 0)
            (0 * 8 + 1 * 4 + 3) = (fun i => 10 + i) (0 * (2 * 4) + 1 * 4 + 3) :=
  make_image_premul_permutes 2 1 8 (fun i => 10 + i) 1 0 (by decide) (by decide) (by decide)

/-! ### C5: quadratic-to-cubic elevation in `set_path` -/

/-- C5. For every `QuadTo` element with tracked current point `start`, control
point `ctrl` and endpoint `endp`, the path lowering emits a cubic whose control
points are exactly `c1 = start + 2/3*(ctrl - start)` and
`c2 = endp + 2/3*(ctrl - endp)`; in particular start `(0,0)`, ctrl `(1,2)`,
endpoint `(2,0)` yields `c1 = (2/3, 4/3)`, `c2 = (4/3, 4/3)` (exactly, in ℚ). -/
theorem set_path_quad_elevation (start ctrl endp : Point) (rest : List PathEl) :
    setPathGo start (PathEl.quadTo ctrl endp :: rest)
        = CairoCall.curveTo
            ⟨start.x + 2/3 * (ctrl.x - start.x), start.y + 2/3 * (ctrl.y - start.y)⟩
            ⟨endp.x + 2/3 * (ctrl.x - endp.x), endp.y + 2/3 * (ctrl.y - endp.y)⟩
            endp :: setPathGo endp rest
      ∧ pathCalls [PathEl.quadTo ⟨1, 2⟩ ⟨2, 0⟩]
          = [CairoCall.curveTo ⟨2/3, 4/3⟩ ⟨4/3, 4/3⟩ ⟨2, 0⟩] :=
  ⟨rfl, by norm_num [pathCalls, setPathGo, quadRaise]⟩

/-! ### C6: affine ↔ matrix conversion -/

/-- C6. The affine-to-matrix conversion maps the six coefficients
`(a, b, c, d, e, f)` exactly to `xx, yx, xy, yy, x0, y0`, and
`matrix_to_affine (affine_to_matrix A) = A` for every affine transform `A`. -/
theorem affine_matrix_round_trip (A : Affine) :
    (affine_to_matrix A).xx = A.a ∧ (affine_to_matrix A).yx = A.b
      ∧ (affine_to_matrix A).xy = A.c ∧ (affine_to_matrix A).yy = A.d
      ∧ (affine_to_matrix A).x0 = A.e ∧ (affine_to_matrix A).y0 = A.f
      ∧ matrix_to_affine (affine_to_matrix A) = A :=
  ⟨rfl, rfl, rfl, rfl, rfl, rfl, rfl⟩

/-! ### C7–C10 -/

theorem foldl_append_call (l : List CairoCall) (st : CairoCtx) :
    l.foldl (fun s c => append_call c s) st = { st with path := st.path ++ l } := by
  induction l generalizing st with
  | nil => simp
  | cons c cs ih => rw [List.foldl_cons, ih]; simp [append_call]

theorem set_path_eq (shape : List PathEl) (st : CairoCtx) :
    set_path shape st = { st with path := pathCalls shape } := by
  simp [set_path, foldl_append_call, new_path]

/-- C7. `draw_image` with no source sub-rectangle behaves exactly as with the
image's full extent `(0, 0, width, height)`; the composition scale factors are
`dst.width / src.width` and `dst.height / src.height` independently per axis;
and drawing a 10×10 image to destination `(0, 0, 20, 20)` yields scale factors
`(2, 2)`. -/
theorem draw_image_full_extent (image : CImage) (dst : Rect) (interp : InterpolationMode) :
    draw_image image none dst interp
        = draw_image image (some ⟨0, 0, (image.width : ℚ), (image.height : ℚ)⟩) dst interp
      ∧ (∀ src : Rect, draw_image image (some src) dst interp
          = [ImageOp.save, ImageOp.clipRect dst,
              ImageOp.translate (dst.x0 - dst.width / src.width * src.x0)
                (dst.y0 - dst.height / src.height * src.y0),
              ImageOp.scale (dst.width / src.width) (dst.height / src.height),
              ImageOp.setSourceSurface (filterOf interp), ImageOp.paint, ImageOp.restore])
      ∧ draw_image ⟨10, 10⟩ none ⟨0, 0, 20, 20⟩ interp
          = [ImageOp.save, ImageOp.clipRect ⟨0, 0, 20, 20⟩, ImageOp.translate 0 0,
              ImageOp.scale 2 2, ImageOp.setSourceSurface (filterOf interp), ImageOp.paint,
              ImageOp.restore] := by
  refine ⟨rfl, fun src => rfl, ?_⟩
  norm_num [draw_image, Rect.width, Rect.height]

/-- C8. Each stroke parameter independently takes its default when its field is
absent (cap → Butt, join → Miter, miter limit → 10, dash → empty array with
zero phase), for every prior context state — in particular a previously set
dash pattern is reset. -/
theorem set_stroke_defaults (w : ℚ) (st : CairoCtx) (s : Option StrokeStyle) :
    (s.bind StrokeStyle.line_cap = none → (set_stroke w s st).lineCap = CLineCap.butt)
      ∧ (s.bind StrokeStyle.line_join = none → (set_stroke w s st).lineJoin = CLineJoin.miter)
      ∧ (s.bind StrokeStyle.miter_limit = none → (set_stroke w s st).miterLimit = 10)
      ∧ (s.bind StrokeStyle.dash = none → (set_stroke w s st).dash = ([], 0)) := by
  refine ⟨fun h => ?_, fun h => ?_, fun h => ?_, fun h => ?_⟩ <;>
    simp [set_stroke, h, convert_line_cap, convert_line_join]

/-- Witness for `set_stroke_defaults`: after a call that sets a dash pattern,
a call with no style resets every parameter to its default. -/
theorem set_stroke_defaults_witness :
    (set_stroke 2 none (set_stroke 1 (some dashStyle) initCtx)).lineCap = CLineCap.butt
      ∧ (set_stroke 2 none (set_stroke 1 (some dashStyle) initCtx)).lineJoin = CLineJoin.miter
      ∧ (set_stroke 2 none (set_stroke 1 (some dashStyle) initCtx)).miterLimit = 10
      ∧ (set_stroke 2 none (set_stroke 1 (some dashStyle) initCtx)).dash = ([], 0) :=
  ⟨(set_stroke_defaults 2 (set_stroke 1 (some dashStyle) initCtx) none).1 rfl,
    (set_stroke_defaults 2 (set_stroke 1 (some dashStyle) initCtx) none).2.1 rfl,
    (set_stroke_defaults 2 (set_stroke 1 (some dashStyle) initCtx) none).2.2.1 rfl,
    (set_stroke_defaults 2 (set_stroke 1 (some dashStyle) initCtx) none).2.2.2 rfl⟩

/-- C9. Every path-consuming operation (`fill`, `fill_even_odd`, `stroke`,
`stroke_styled`, `clip`) leaves the context's path state empty, and the path it
consumes is exactly the lowering of its shape argument — independent of any
path left in the context by prior operations, thanks to the defensive
`new_path` at the start of `set_path`. -/
theorem path_ops_reset_path (shape : List PathEl) (b : Brush) (w : ℚ) (sty : StrokeStyle)
    (st : CairoCtx) :
    (fill shape b st).path = []
      ∧ (fill shape b st).filled = st.filled ++ [(FillRule.winding, pathCalls shape)]
      ∧ (fill_even_odd shape b st).path = []
      ∧ (fill_even_odd shape b st).filled = st.filled ++ [(FillRule.evenOdd, pathCalls shape)]
      ∧ (stroke shape b w st).path = []
      ∧ (stroke shape b w st).stroked = st.stroked ++ [pathCalls shape]
      ∧ (stroke_styled shape b w sty st).path = []
      ∧ (stroke_styled shape b w sty st).stroked = st.stroked ++ [pathCalls shape]
      ∧ (clip shape st).path = []
      ∧ (clip shape st).clipped = st.clipped ++ [(FillRule.winding, pathCalls shape)] := by
  refine ⟨?_, ?_, ?_, ?_, ?_, ?_, ?_, ?_, ?_, ?_⟩ <;>
    simp [fill, fill_even_odd, stroke, stroke_styled, clip, make_brush, set_path_eq,
      set_brush, set_stroke, set_fill_rule, ctx_fill, ctx_stroke, ctx_clip, CowBrush.get]

/-- C10. For every brush value — solid, linear or radial — `make_brush` returns
a borrowed reference to the same brush, leaves the render context unchanged,
and its result does not depend on the lazy bounding-box supplier (which it
never invokes). -/
theorem make_brush_borrowed (b : Brush) (st : CairoCtx) (f g : Unit → Rect) :
    make_brush b st f = (CowBrush.borrowed b, st) ∧ make_brush b st f = make_brush b st g :=
  ⟨rfl, rfl⟩

end PietCairo
